import Mathlib

/-!
# anyflix: the range-based streaming gateway

A shallow embedding of `handleStreamTorrentFile` and `getFileHash` from `main.go`,
together with the pieces of the Go standard library they call
(`strings.TrimPrefix`, `strings.SplitN`, `strconv.ParseInt`, `strconv.Atoi`,
`io.CopyN`) and of the torrent library (`Files`, `Piece`, `NewReader`).

Conventions.
* A Go `string` is a `String`; the string functions work on its list of characters.
  Every character the code inspects is ASCII, so working on characters instead of
  bytes does not change any result.
* `int64` values are mathematical integers; every Go operation that can overflow is
  followed by `wrapInt64`. `int` is taken to be 64 bits wide.
* An HTTP exchange is the list of effects the handler performs, in order.
-/

namespace Anyflix

/-! ## Machine integers -/

/-- The largest `int64`. -/
def maxInt64 : Int := 9223372036854775807

/-- The smallest `int64`. -/
def minInt64 : Int := -9223372036854775808

/-- The largest `uint64`. -/
def maxUint64 : Nat := 18446744073709551615

/-- Two's-complement reduction of a mathematical integer to an `int64`. -/
def wrapInt64 (x : Int) : Int :=
  (x + 9223372036854775808) % 18446744073709551616 - 9223372036854775808

/-! ## `strings` -/

/-- Go `strings.TrimPrefix(s, pre)`: `s` without the leading `pre`, or `s` unchanged. -/
def trimPrefix (s pre : List Char) : List Char :=
  if pre.isPrefixOf s then s.drop pre.length else s

/-- Go `strings.SplitN(s, sep, n)` for a one-character separator and `n ≥ 0`:
at most `n` substrings, the last one being the unsplit remainder. -/
def splitN (s : List Char) (sep : Char) : Nat → List (List Char)
  | 0 => []
  | 1 => [s]
  | n + 2 =>
    match s.span (fun c => c != sep) with
    | (_, []) => [s]
    | (a, _ :: rest) => a :: splitN rest sep (n + 1)

/-! ## `strconv` -/

/-- The two error kinds of `strconv.NumError`. -/
inductive NumError
  | ErrSyntax
  | ErrRange
  deriving DecidableEq, Repr

/-- Go `lower(c)`: `c | ('x' - 'X')`. -/
def lower (c : Nat) : Nat := c ||| 32

/-- The digit value `strconv.ParseUint` assigns to a character, if any. -/
def digitOf (c : Char) : Option Nat :=
  if 48 ≤ c.toNat ∧ c.toNat ≤ 57 then some (c.toNat - 48)
  else if 97 ≤ lower c.toNat ∧ lower c.toNat ≤ 122 then some (lower c.toNat - 97 + 10)
  else none

/-- The smallest number whose tenfold exceeds `maxUint64`. -/
def cutoff10 : Nat := maxUint64 / 10 + 1

/-- The digit loop of `strconv.ParseUint(s, 10, 64)`, started with accumulator `n`. -/
def parseUintLoop : List Char → Nat → Nat × Option NumError
  | [], n => (n, none)
  | c :: cs, n =>
    match digitOf c with
    | none => (0, some .ErrSyntax)
    | some d =>
      if d ≥ 10 then (0, some .ErrSyntax)
      else if n ≥ cutoff10 then (maxUint64, some .ErrRange)
      else
        let n10 := n * 10
        let n1 := (n10 + d) % 18446744073709551616
        if n1 < n10 ∨ n1 > maxUint64 then (maxUint64, some .ErrRange)
        else parseUintLoop cs n1

/-- Go `strconv.ParseUint(s, 10, 64)`. -/
def parseUint (s : List Char) : Nat × Option NumError :=
  match s with
  | [] => (0, some .ErrSyntax)
  | _ => parseUintLoop s 0

/-- Go `strconv.ParseInt(s, 10, 64)`: the value and the error, both of which Go returns. -/
def parseInt (s : List Char) : Int × Option NumError :=
  match s with
  | [] => (0, some .ErrSyntax)
  | c :: cs =>
    let neg := decide (c = '-')
    let digits := if c = '+' ∨ c = '-' then cs else s
    match parseUint digits with
    | (_, some .ErrSyntax) => (0, some .ErrSyntax)
    | (un, _) =>
      if !neg ∧ un ≥ 9223372036854775808 then (9223372036854775807, some .ErrRange)
      else if neg ∧ un > 9223372036854775808 then (-9223372036854775808, some .ErrRange)
      else
        let n := wrapInt64 un
        (if neg then wrapInt64 (-n) else n, none)

/-- Go `strconv.Atoi(s)`, which is `ParseInt(s, 10, 0)` converted to `int`. -/
def atoi (s : List Char) : Int × Option NumError := parseInt s

/-! ## The torrent library -/

/-- One file of a torrent: `file.Length()`. Files are laid out back to back. -/
structure File where
  length : Int
  deriving DecidableEq, Repr

/-- What the handlers use of a `*torrent.Torrent` once its info is known. -/
structure Torrent where
  /-- `torrent.Files()`, in metadata order. -/
  files : List File
  /-- The fixed piece size. -/
  pieceLength : Int
  /-- The hex string of each piece's hash, by piece index. -/
  pieces : List String
  deriving DecidableEq, Repr

/-- Go slice indexing `xs[i]` with an `int` index: `none` stands for the runtime panic
on a negative or too large index. -/
def index {α : Type} (xs : List α) (i : Int) : Option α :=
  if i < 0 then none else xs[i.toNat]?

/-- The byte offset of file `i` inside the torrent: the lengths of the files before it. -/
def fileOffset (t : Torrent) (i : Nat) : Int :=
  ((t.files.take i).map File.length).sum

/-- Piece `p` holds at least one byte of file `i`. -/
def pieceBacksFile (t : Torrent) (p i : Nat) : Bool :=
  match t.files[i]? with
  | none => false
  | some f =>
    decide ((p : Int) * t.pieceLength < fileOffset t i + f.length ∧
      fileOffset t i < ((p : Int) + 1) * t.pieceLength)

/-- The behaviour of the `io.ReadSeeker` returned by `file.NewReader()`. -/
structure FileReader where
  /-- Whether `Seek(off, io.SeekStart)` returns an error. -/
  seekFails : Int → Bool
  /-- How many bytes reads deliver after a seek to `off`, before end of file or a
  read error. -/
  supplies : Int → Nat

/-- A reader that never fails and supplies every byte of a file of length `len` from the
offset it was positioned at up to the end of the file, then end of file. -/
def fullReader (len : Int) : FileReader where
  seekFails := fun _ => false
  supplies := fun off => (len - off).toNat

/-! ## The HTTP exchange -/

/-- One effect of a handler on the response or on the file reader. -/
inductive Event
  /-- `w.Header().Set(key, value)` -/
  | setHeader (key value : String)
  /-- `w.WriteHeader(status)` -/
  | writeHeader (status : Nat)
  /-- `http.Error(w, msg, status)` -/
  | httpError (msg : String) (status : Nat)
  /-- `file.NewReader()` -/
  | newReader
  /-- `reader.Seek(off, io.SeekStart)` -/
  | seek (off : Int)
  /-- `n` bytes of the file written to the response body -/
  | body (n : Nat)
  /-- `slog.Error(msg, ...)` -/
  | logError (msg : String)
  /-- a runtime panic: index out of range -/
  | indexPanic
  deriving DecidableEq, Repr

/-- `const chunkSize = 10 * 1024 * 1024`. -/
def chunkSize : Int := 10 * 1024 * 1024

/-- Lines 391-400: the start parsed from the value of the `Range` header
(`r.Header.Get("Range")`, the empty string when the header is absent). -/
def rangeStart (rangeHeader : String) : Int :=
  let ranges := splitN (trimPrefix rangeHeader.toList "bytes=".toList) '-' 2
  match ranges with
  | [a, _] => (parseInt a).1
  | _ => 0

/-- Lines 391-403: the window `(start, end)` computed for a header value and a file length. -/
def window (rangeHeader : String) (fileLength : Int) : Int × Int :=
  let start := rangeStart rangeHeader
  let stop := wrapInt64 (start + chunkSize)
  (start, min stop fileLength)

/-- Line 407: the integer printed as `Content-Length`, `end-start+1` in `int64`. -/
def contentLength (start stop : Int) : Int :=
  wrapInt64 (wrapInt64 (stop - start) + 1)

/-- Go `io.CopyN(w, reader, n)` on a reader that delivers `supplied` bytes: the number of
bytes written, and whether the call returned an error (fewer than `n` bytes written). -/
def copyN (supplied : Nat) (n : Int) : Nat × Bool :=
  let written := min supplied n.toNat
  (written, decide ((written : Int) < n))

/-- `r.Header.Get("Range")`: the empty string when the header is absent. -/
def headerGet (h : Option String) : String := h.getD ""

/-- The handler `torrentService.handleStreamTorrentFile`, after the torrent's info has
arrived. `fileIdxValue` is `r.PathValue("fileIdx")`, `range` the `Range` header if
present, `newReader` the behaviour of `file.NewReader()`. -/
def handleStreamTorrentFile (t : Torrent) (fileIdxValue : String) (range : Option String)
    (newReader : File → FileReader) : List Event :=
  if t.files.length = 0 then
    [.httpError "torrent has no files" 400]
  else
    match atoi fileIdxValue.toList with
    | (_, some _) => [.httpError "invalid fileIdx" 400]
    | (fileIdx, none) =>
      if fileIdx ≥ t.files.length then
        [.httpError "invalid fileIdx" 400]
      else
        match index t.files fileIdx with
        | none => [.indexPanic]
        | some file =>
          let w := window (headerGet range) file.length
          let start := w.1
          let stop := w.2
          let reader := newReader file
          [ .setHeader "Accept-Ranges" "bytes",
            .setHeader "Content-Type" "video/mp4",
            .setHeader "Content-Length" (toString (contentLength start stop)),
            .setHeader "Content-Range"
              ("bytes " ++ toString start ++ "-" ++ toString stop ++ "/" ++
                toString file.length),
            .writeHeader 206,
            .newReader,
            .seek start ] ++
          (if reader.seekFails start then
            [.logError "failed to seek"]
          else
            let c := copyN (reader.supplies start) chunkSize
            .body c.1 :: (if c.2 then [.logError "failed to stream chunk"] else []))

/-- The three ways `getFileHash` can end. -/
inductive HashResult
  | ok (hash : String)
  | error (msg : String)
  | indexPanic
  deriving DecidableEq, Repr

/-- The method `torrentService.getFileHash`, after the torrent's info has arrived.
`torrent.Piece(i)` indexes the torrent's piece slice. -/
def getFileHash (t : Torrent) (fileIdx : Int) : HashResult :=
  if t.files.length = 0 then .error "invalid torrent"
  else if fileIdx ≥ t.files.length then .error "invalid fileIdx"
  else
    match index t.pieces fileIdx with
    | none => .indexPanic
    | some hash => .ok hash

/-! ## Vocabulary of the statements -/

/-- The character is one of the decimal digits `'0'` to `'9'`. -/
def isDigitChar (c : Char) : Prop := 48 ≤ c.toNat ∧ c.toNat ≤ 57

instance (c : Char) : Decidable (isDigitChar c) := by
  unfold isDigitChar
  infer_instance

/-- The number denoted by the decimal digits `ds` read after an accumulated value `n`. -/
def decValue (ds : List Char) (n : Nat) : Nat :=
  ds.foldl (fun acc c => acc * 10 + (c.toNat - 48)) n

/-- What `strconv.ParseInt` makes of the result of `strconv.ParseUint` when the text
carries no minus sign. -/
def parseIntPos (r : Nat × Option NumError) : Int × Option NumError :=
  match r with
  | (_, some .ErrSyntax) => (0, some .ErrSyntax)
  | (un, _) =>
    if un ≥ 9223372036854775808 then (9223372036854775807, some .ErrRange)
    else ((un : Int), none)

/-- The number of body bytes an exchange wrote. -/
def bodyBytes (es : List Event) : Nat :=
  (es.map (fun e => match e with
    | .body n => n
    | _ => 0)).sum

/-- The event is the writing of body bytes. -/
def isBody (e : Event) : Bool :=
  match e with
  | .body _ => true
  | _ => false

/-- The text without the sign `strconv.ParseInt` picks off. -/
def unsignedPart (a : List Char) : List Char :=
  match a with
  | [] => []
  | c :: cs => if c = '+' ∨ c = '-' then cs else c :: cs

/-- The text is not decimal syntax for `strconv.ParseInt`: after the optional sign it is
empty, or it has a character that is not a digit and the digits before the first such
character denote a number that still fits a `uint64`. -/
def malformedStart (a : List Char) : Bool :=
  decide (unsignedPart a = [] ∨
    ((unsignedPart a).takeWhile (fun c => decide (isDigitChar c))).length
        < (unsignedPart a).length ∧
      decValue ((unsignedPart a).takeWhile (fun c => decide (isDigitChar c))) 0 ≤ maxUint64)

/-! ## Evaluation on concrete inputs -/

example : window "bytes=0-" 100000000 = (0, 10485760) := by decide
example : window "bytes=4999000-" 5000000 = (4999000, 5000000) := by decide
example : window "bytes=200-" 100 = (200, 100) := by decide
example : rangeStart "bytes=9223372036854775808-" = 9223372036854775807 := by decide
example : rangeStart "bytes=-500" = 0 := by decide
example : rangeStart "bytes=12x-" = 0 := by decide
example : rangeStart "bytes=99999999999999999999x-" = 9223372036854775807 := by decide
example : rangeStart "bytes=+5-7" = 5 := by decide
example : rangeStart "100-200" = 100 := by decide
example : rangeStart "bytes=100" = 0 := by decide

/-! ## Lemmas on the string functions -/

theorem span_ne_append (sep : Char) (a b : List Char) (ha : sep ∉ a) :
    (a ++ sep :: b).span (fun c => c != sep) = (a, sep :: b) := by
  rw [List.span_eq_take_drop]
  induction a with
  | nil => simp [List.takeWhile, List.dropWhile]
  | cons x xs ih =>
    have hx : (x != sep) = true := by
      have : x ≠ sep := fun h => ha (by simp [h])
      simpa using this
    have hxs : sep ∉ xs := fun h => ha (by simp [h])
    have h := ih hxs
    simp only [Prod.mk.injEq] at h ⊢
    simp only [List.cons_append, List.takeWhile, List.dropWhile, hx]
    exact ⟨congrArg (List.cons x) h.1, h.2⟩

theorem span_ne_of_not_mem (sep : Char) (a : List Char) (ha : sep ∉ a) :
    a.span (fun c => c != sep) = (a, []) := by
  rw [List.span_eq_take_drop]
  have h : ∀ c ∈ a, (c != sep) = true := by
    intro c hc
    have : c ≠ sep := fun h => ha (h ▸ hc)
    simpa using this
  simp only [Prod.mk.injEq]
  exact ⟨List.takeWhile_eq_self_iff.mpr h, List.dropWhile_eq_nil_iff.mpr h⟩

theorem splitN_two_of_sep (sep : Char) (a b : List Char) (ha : sep ∉ a) :
    splitN (a ++ sep :: b) sep 2 = [a, b] := by
  simp only [splitN]
  rw [span_ne_append sep a b ha]

theorem splitN_two_of_not_mem (sep : Char) (a : List Char) (ha : sep ∉ a) :
    splitN a sep 2 = [a] := by
  simp only [splitN]
  rw [span_ne_of_not_mem sep a ha]

/-! ## Lemmas on `strconv` -/

theorem digitOf_of_isDigitChar (c : Char) (h : isDigitChar c) :
    digitOf c = some (c.toNat - 48) := by
  unfold isDigitChar at h
  simp [digitOf, h.1, h.2]

theorem le_decValue (ds : List Char) (n : Nat) : n ≤ decValue ds n := by
  induction ds generalizing n with
  | nil => simp [decValue]
  | cons c cs ih =>
    have h := ih (n * 10 + (c.toNat - 48))
    simp only [decValue, List.foldl_cons] at h ⊢
    omega

theorem decValue_append (ds es : List Char) (n : Nat) :
    decValue (ds ++ es) n = decValue es (decValue ds n) := by
  simp [decValue, List.foldl_append]

theorem parseUintLoop_not_digit (c : Char) (cs : List Char) (n : Nat) (h : ¬ isDigitChar c) :
    parseUintLoop (c :: cs) n = (0, some .ErrSyntax) := by
  unfold isDigitChar at h
  unfold parseUintLoop digitOf
  rw [if_neg h]
  split
  · rfl
  · rename_i d hd
    split at hd
    · have hd2 : d ≥ 10 := by
        have := Option.some.inj hd
        omega
      simp [hd2]
    · cases hd

theorem parseUintLoop_digits (ds rest : List Char) (n : Nat) (hds : ∀ c ∈ ds, isDigitChar c) :
    parseUintLoop (ds ++ rest) n =
      if ds = [] ∨ decValue ds n ≤ maxUint64 then parseUintLoop rest (decValue ds n)
      else (maxUint64, some .ErrRange) := by
  induction ds generalizing n with
  | nil => simp [decValue]
  | cons c cs ih =>
    have hc : isDigitChar c := hds c (by simp)
    have hcs : ∀ x ∈ cs, isDigitChar x := fun x hx => hds x (by simp [hx])
    have hd : c.toNat - 48 < 10 := by
      unfold isDigitChar at hc
      omega
    have hmono := le_decValue cs (n * 10 + (c.toNat - 48))
    have hstep : decValue (c :: cs) n = decValue cs (n * 10 + (c.toNat - 48)) := by
      simp [decValue]
    rw [hstep]
    simp only [List.cons_append, parseUintLoop, digitOf_of_isDigitChar c hc]
    rw [if_neg (by omega)]
    by_cases hcut : n ≥ cutoff10
    · rw [if_pos hcut]
      have : ¬ (c :: cs = [] ∨ decValue cs (n * 10 + (c.toNat - 48)) ≤ maxUint64) := by
        simp only [cutoff10, maxUint64] at hcut ⊢
        simp only [reduceCtorEq, false_or]
        omega
      rw [if_neg this]
    · rw [if_neg hcut]
      simp only [cutoff10, maxUint64] at hcut
      by_cases hov : n * 10 + (c.toNat - 48) ≤ maxUint64
      · simp only [maxUint64] at hov
        have hmod : (n * 10 + (c.toNat - 48)) % 18446744073709551616
            = n * 10 + (c.toNat - 48) := Nat.mod_eq_of_lt (by omega)
        simp only [hmod]
        rw [if_neg (by simp only [maxUint64]; omega)]
        change parseUintLoop (cs ++ rest) _ = _
        rw [ih _ hcs]
        by_cases hnil : cs = []
        · subst hnil
          have hval : decValue [] (n * 10 + (c.toNat - 48)) = n * 10 + (c.toNat - 48) := rfl
          rw [if_pos (Or.inl rfl),
            if_pos (Or.inr (by rw [hval]; simp only [maxUint64]; omega))]
        · simp [hnil]
      · simp only [maxUint64] at hov
        rw [if_pos (by simp only [maxUint64]; omega)]
        have : ¬ (c :: cs = [] ∨ decValue cs (n * 10 + (c.toNat - 48)) ≤ maxUint64) := by
          simp only [maxUint64] at hmono ⊢
          simp only [reduceCtorEq, false_or]
          omega
        rw [if_neg this]

theorem wrapInt64_of_lt (n : Nat) (h : n < 9223372036854775808) : wrapInt64 n = n := by
  unfold wrapInt64
  omega

theorem parseInt_plus (body : List Char) :
    parseInt ('+' :: body) = parseIntPos (parseUint body) := by
  simp only [parseInt, parseIntPos]
  rcases hres : parseUint body with ⟨un, e⟩
  rcases e with _ | e
  · by_cases hun : un ≥ 9223372036854775808
    · simp [hun, hres]
    · have hw := wrapInt64_of_lt un (by omega)
      simp [hun, hw, hres]
  · cases e
    · simp [hres]
    · by_cases hun : un ≥ 9223372036854775808
      · simp [hun, hres]
      · have hw := wrapInt64_of_lt un (by omega)
        simp [hun, hw, hres]

theorem parseInt_unsigned (c : Char) (cs : List Char) (hp : c ≠ '+') (hm : c ≠ '-') :
    parseInt (c :: cs) = parseIntPos (parseUint (c :: cs)) := by
  simp only [parseInt, parseIntPos]
  rcases hres : parseUint (c :: cs) with ⟨un, e⟩
  rcases e with _ | e
  · by_cases hun : un ≥ 9223372036854775808
    · simp [hun, hp, hm, hres]
    · have hw := wrapInt64_of_lt un (by omega)
      simp [hun, hw, hp, hm, hres]
  · cases e
    · simp [hp, hm, hres]
    · by_cases hun : un ≥ 9223372036854775808
      · simp [hun, hp, hm, hres]
      · have hw := wrapInt64_of_lt un (by omega)
        simp [hun, hw, hp, hm, hres]

theorem parseUint_digits (ds : List Char) (hne : ds ≠ []) (hds : ∀ c ∈ ds, isDigitChar c) :
    parseUint ds =
      if decValue ds 0 ≤ maxUint64 then (decValue ds 0, none)
      else (maxUint64, some .ErrRange) := by
  have h := parseUintLoop_digits ds [] 0 hds
  rw [List.append_nil] at h
  cases ds with
  | nil => exact absurd rfl hne
  | cons c cs =>
    simp only [parseUint]
    rw [h]
    simp only [reduceCtorEq, false_or, parseUintLoop]

theorem digit_ne_sign (c : Char) (h : isDigitChar c) : c ≠ '+' ∧ c ≠ '-' := by
  unfold isDigitChar at h
  constructor
  · rintro rfl
    revert h
    decide
  · rintro rfl
    revert h
    decide

theorem parseInt_digits (ds : List Char) (hne : ds ≠ []) (hds : ∀ c ∈ ds, isDigitChar c) :
    parseInt ds =
      if decValue ds 0 ≤ 9223372036854775807 then ((decValue ds 0 : Int), none)
      else (9223372036854775807, some .ErrRange) := by
  cases ds with
  | nil => exact absurd rfl hne
  | cons c cs =>
    have hs := digit_ne_sign c (hds c (by simp))
    rw [parseInt_unsigned c cs hs.1 hs.2, parseUint_digits (c :: cs) hne hds]
    by_cases h1 : decValue (c :: cs) 0 ≤ maxUint64
    · rw [if_pos h1]
      by_cases h2 : decValue (c :: cs) 0 ≤ 9223372036854775807
      · rw [if_pos h2]
        simp only [parseIntPos]
        rw [if_neg (by omega)]
      · rw [if_neg h2]
        simp only [parseIntPos]
        rw [if_pos (by omega)]
    · rw [if_neg h1, if_neg (by simp only [maxUint64] at h1; omega)]
      simp [parseIntPos, maxUint64]

/-! ## Lemmas on decimal printing -/

theorem digitChar_isDigitChar (k : Nat) (hk : k < 10) :
    isDigitChar (Nat.digitChar k) ∧ (Nat.digitChar k).toNat - 48 = k := by
  unfold isDigitChar
  interval_cases k <;> decide

theorem toDigitsCore_spec (fuel n : Nat) (acc : List Char) (h : n < fuel) :
    ∃ ds, Nat.toDigitsCore 10 fuel n acc = ds ++ acc ∧ ds ≠ [] ∧
      (∀ c ∈ ds, isDigitChar c) ∧ decValue ds 0 = n := by
  induction fuel generalizing n acc with
  | zero => omega
  | succ fuel ih =>
    have hd := digitChar_isDigitChar (n % 10) (Nat.mod_lt _ (by decide))
    simp only [Nat.toDigitsCore]
    by_cases hq : n / 10 = 0
    · rw [if_pos hq]
      refine ⟨[Nat.digitChar (n % 10)], rfl, by simp, ?_, ?_⟩
      · intro c hc
        rw [List.mem_singleton.mp hc]
        exact hd.1
      · simp only [decValue, List.foldl_cons, List.foldl_nil, hd.2]
        omega
    · rw [if_neg hq]
      obtain ⟨ds, hds, _, hdig, hval⟩ := ih (n / 10) (Nat.digitChar (n % 10) :: acc) (by omega)
      refine ⟨ds ++ [Nat.digitChar (n % 10)], by rw [hds]; simp, by simp, ?_, ?_⟩
      · intro c hc
        rcases List.mem_append.mp hc with hc | hc
        · exact hdig c hc
        · rw [List.mem_singleton.mp hc]
          exact hd.1
      · rw [decValue_append, hval]
        simp only [decValue, List.foldl_cons, List.foldl_nil, hd.2]
        omega

theorem toString_nat_spec (n : Nat) :
    (toString n).toList ≠ [] ∧ (∀ c ∈ (toString n).toList, isDigitChar c) ∧
      decValue (toString n).toList 0 = n := by
  obtain ⟨ds, hds, hne, hdig, hval⟩ := toDigitsCore_spec (n + 1) n [] (by omega)
  have h : (toString n).toList = ds := by
    rw [List.append_nil] at hds
    exact hds
  rw [h]
  exact ⟨hne, hdig, hval⟩

/-! ## Lemmas on the `Range` header -/

theorem trimPrefix_bytes (x : List Char) :
    trimPrefix ("bytes=".toList ++ x) "bytes=".toList = x := by
  have h : "bytes=".toList = ['b', 'y', 't', 'e', 's', '='] := rfl
  rw [h]
  simp [trimPrefix, List.isPrefixOf]

theorem rangeStart_of_sep (h : String) (a b : List Char)
    (hsplit : trimPrefix h.toList "bytes=".toList = a ++ '-' :: b) (ha : '-' ∉ a) :
    rangeStart h = (parseInt a).1 := by
  simp only [rangeStart]
  rw [hsplit, splitN_two_of_sep '-' a b ha]

theorem rangeStart_of_no_sep (h : String)
    (hno : '-' ∉ trimPrefix h.toList "bytes=".toList) : rangeStart h = 0 := by
  simp only [rangeStart]
  rw [splitN_two_of_not_mem '-' _ hno]

theorem digits_no_sep (ds : List Char) (hds : ∀ c ∈ ds, isDigitChar c) : '-' ∉ ds := by
  intro h
  exact (digit_ne_sign '-' (hds _ h)).2 rfl

theorem rangeStart_open (s : Nat) (hs : (s : Int) ≤ maxInt64) :
    rangeStart ("bytes=" ++ toString s ++ "-") = s := by
  obtain ⟨hne, hdig, hval⟩ := toString_nat_spec s
  have hl : ("bytes=" ++ toString s ++ "-").toList
      = "bytes=".toList ++ ((toString s).toList ++ '-' :: []) := by
    simp [String.toList]
  have hsplit : trimPrefix ("bytes=" ++ toString s ++ "-").toList "bytes=".toList
      = (toString s).toList ++ '-' :: [] := by
    rw [hl, trimPrefix_bytes]
  rw [rangeStart_of_sep _ _ _ hsplit (digits_no_sep _ hdig), parseInt_digits _ hne hdig, hval]
  simp only [maxInt64] at hs
  rw [if_pos (by omega)]

theorem chunkSize_eq : chunkSize = 10485760 := by
  unfold chunkSize
  norm_num

/-! ## The window of a request (lines 391-403) -/

/-- C1: for every file length `L` (an `int64`) and every start `s` with `0 ≤ s < L`, the
header `bytes=<s>-` with `s` printed in decimal yields the window with `start = s` and
`end = min(s + 10485760, L)`, the sum being the `int64` sum of the code, and
`end - start ≤ 10485760`, both as integers and as the `int64` difference. Whenever
`s + 10485760` is itself an `int64`, `end` is the minimum of the exact sum and `L`. -/
theorem window_open_range (s : Nat) (L : Int) (hs : (s : Int) < L) (hL : L ≤ maxInt64) :
    (window ("bytes=" ++ toString s ++ "-") L).1 = s ∧
    (window ("bytes=" ++ toString s ++ "-") L).2 = min (wrapInt64 (s + 10485760)) L ∧
    (window ("bytes=" ++ toString s ++ "-") L).2 - (window ("bytes=" ++ toString s ++ "-") L).1
      ≤ 10485760 ∧
    wrapInt64 ((window ("bytes=" ++ toString s ++ "-") L).2 -
      (window ("bytes=" ++ toString s ++ "-") L).1) ≤ 10485760 ∧
    ((s : Int) + 10485760 ≤ maxInt64 →
      (window ("bytes=" ++ toString s ++ "-") L).2 = min ((s : Int) + 10485760) L) := by
  have hstart := rangeStart_open s (by omega)
  simp only [window, hstart, chunkSize_eq]
  simp only [maxInt64] at hL ⊢
  refine ⟨trivial, trivial, ?_, ?_, ?_⟩
  · simp only [wrapInt64]
    omega
  · simp only [wrapInt64]
    omega
  · intro h
    simp only [wrapInt64]
    omega

/-- The statement of C1 at `s = 4999000`, `L = 5000000`. -/
theorem window_open_range_witness :
    (window ("bytes=" ++ toString 4999000 ++ "-") 5000000).1 = (4999000 : Nat) ∧
    (window ("bytes=" ++ toString 4999000 ++ "-") 5000000).2
      = min (wrapInt64 ((4999000 : Nat) + 10485760)) 5000000 ∧
    (window ("bytes=" ++ toString 4999000 ++ "-") 5000000).2 -
      (window ("bytes=" ++ toString 4999000 ++ "-") 5000000).1 ≤ 10485760 ∧
    wrapInt64 ((window ("bytes=" ++ toString 4999000 ++ "-") 5000000).2 -
      (window ("bytes=" ++ toString 4999000 ++ "-") 5000000).1) ≤ 10485760 ∧
    (((4999000 : Nat) : Int) + 10485760 ≤ maxInt64 →
      (window ("bytes=" ++ toString 4999000 ++ "-") 5000000).2
        = min (((4999000 : Nat) : Int) + 10485760) 5000000) :=
  window_open_range 4999000 5000000 (by decide) (by decide)

theorem parseIntPos_bounds (r : Nat × Option NumError) :
    0 ≤ (parseIntPos r).1 ∧ (parseIntPos r).1 ≤ maxInt64 := by
  rcases r with ⟨un, e⟩
  rcases e with _ | e
  · by_cases hun : un ≥ 9223372036854775808
    · simp [parseIntPos, hun, maxInt64]
    · simp only [parseIntPos, if_neg hun, maxInt64]
      omega
  · cases e
    · simp [parseIntPos, maxInt64]
    · by_cases hun : un ≥ 9223372036854775808
      · simp [parseIntPos, hun, maxInt64]
      · simp only [parseIntPos, if_neg hun, maxInt64]
        omega

theorem parseInt_bounds_of_no_sep (a : List Char) (ha : '-' ∉ a) :
    0 ≤ (parseInt a).1 ∧ (parseInt a).1 ≤ maxInt64 := by
  cases a with
  | nil => simp [parseInt, maxInt64]
  | cons c cs =>
    have hm : c ≠ '-' := fun h => ha (by simp [h])
    by_cases hp : c = '+'
    · subst hp
      rw [parseInt_plus]
      exact parseIntPos_bounds _
    · rw [parseInt_unsigned c cs hp hm]
      exact parseIntPos_bounds _

theorem rangeStart_bounds (h : String) : 0 ≤ rangeStart h ∧ rangeStart h ≤ maxInt64 := by
  by_cases hmem : '-' ∈ trimPrefix h.toList "bytes=".toList
  · obtain ⟨a, b, hab, ha⟩ := List.eq_append_cons_of_mem hmem
    rw [rangeStart_of_sep h a b hab ha]
    exact parseInt_bounds_of_no_sep a ha
  · rw [rangeStart_of_no_sep h hmem]
    simp [maxInt64]

/-- C7, as stated, fails: `bytes=9223372036854775807-` and `bytes=9223372036854775807-5`
give the same window for a file of 100 bytes, but its end is not
`min(start + 10485760, 100) = 100`: `ParseInt` returns the start 9223372036854775807
without an error, `start + chunkSize` wraps around in `int64`, and the end is the negative
number -9223372036844290049. -/
theorem window_end_wraps :
    window "bytes=9223372036854775807-" 100 = (9223372036854775807, -9223372036844290049) ∧
    window "bytes=9223372036854775807-5" 100 = (9223372036854775807, -9223372036844290049) ∧
    (window "bytes=9223372036854775807-" 100).2 ≠
      min ((window "bytes=9223372036854775807-" 100).1 + 10485760) 100 := by
  decide

/-- C7, amended: the explicit end of a `Range` header is not honoured. Two header values
whose text after the `bytes=` prefix agrees up to the first `-` give the same window for
every file length `L`; its start is what `ParseInt` returns for that text, a number from
0 to `2^63 - 1`, and its end is `min(start + 10485760, L)` whenever
`start + 10485760 ≤ 2^63 - 1`. -/
theorem window_ignores_explicit_end (h1 h2 : String) (a b1 b2 : List Char) (L : Int)
    (e1 : trimPrefix h1.toList "bytes=".toList = a ++ '-' :: b1)
    (e2 : trimPrefix h2.toList "bytes=".toList = a ++ '-' :: b2)
    (ha : '-' ∉ a) :
    window h1 L = window h2 L ∧
    (window h1 L).1 = (parseInt a).1 ∧
    0 ≤ (window h1 L).1 ∧ (window h1 L).1 ≤ maxInt64 ∧
    ((window h1 L).1 + 10485760 ≤ maxInt64 →
      (window h1 L).2 = min ((window h1 L).1 + 10485760) L ∧
      (window h2 L).2 = min ((window h2 L).1 + 10485760) L) := by
  have s1 := rangeStart_of_sep h1 a b1 e1 ha
  have s2 := rangeStart_of_sep h2 a b2 e2 ha
  have hb := parseInt_bounds_of_no_sep a ha
  simp only [window, s1, s2, chunkSize_eq]
  refine ⟨trivial, trivial, hb.1, hb.2, ?_⟩
  intro hmax
  have hlo := hb.1
  simp only [maxInt64] at hmax
  have hw : wrapInt64 ((parseInt a).1 + 10485760) = (parseInt a).1 + 10485760 := by
    simp only [wrapInt64]
    omega
  rw [hw]
  exact ⟨rfl, rfl⟩

/-- The statement of C7, amended, at the headers `bytes=100-` and `bytes=100-200` and the
file length 1000, where the start is 100 and the end is `min(100 + 10485760, 1000)`. -/
theorem window_ignores_explicit_end_witness :
    window "bytes=100-" 1000 = window "bytes=100-200" 1000 ∧
    (window "bytes=100-" 1000).1 = (parseInt "100".toList).1 ∧
    0 ≤ (window "bytes=100-" 1000).1 ∧ (window "bytes=100-" 1000).1 ≤ maxInt64 ∧
    (window "bytes=100-" 1000).2 = min ((window "bytes=100-" 1000).1 + 10485760) 1000 ∧
    (window "bytes=100-200" 1000).2 = min ((window "bytes=100-200" 1000).1 + 10485760) 1000 :=
  have h := window_ignores_explicit_end "bytes=100-" "bytes=100-200" "100".toList []
    "200".toList 1000 (by decide) (by decide) (by decide)
  ⟨h.1, h.2.1, h.2.2.1, h.2.2.2.1, h.2.2.2.2 (by decide)⟩

/-! ## The exchange of a valid request (lines 376-426) -/

theorem index_of_getElem_some {α : Type} (xs : List α) (i : Nat) (x : α) (h : xs[i]? = some x) :
    index xs (i : Int) = some x := by
  unfold index
  rw [if_neg (by omega)]
  simpa using h

theorem handle_of_valid (t : Torrent) (v : String) (range : Option String)
    (newReader : File → FileReader) (i : Nat) (file : File)
    (hidx : atoi v.toList = ((i : Int), none)) (hfile : t.files[i]? = some file) :
    handleStreamTorrentFile t v range newReader =
      [ .setHeader "Accept-Ranges" "bytes",
        .setHeader "Content-Type" "video/mp4",
        .setHeader "Content-Length"
          (toString (contentLength (window (headerGet range) file.length).1
            (window (headerGet range) file.length).2)),
        .setHeader "Content-Range"
          ("bytes " ++ toString (window (headerGet range) file.length).1 ++ "-" ++
            toString (window (headerGet range) file.length).2 ++ "/" ++ toString file.length),
        .writeHeader 206,
        .newReader,
        .seek (window (headerGet range) file.length).1 ] ++
      (if (newReader file).seekFails (window (headerGet range) file.length).1 then
        [.logError "failed to seek"]
      else
        .body (copyN ((newReader file).supplies (window (headerGet range) file.length).1)
            chunkSize).1 ::
          (if (copyN ((newReader file).supplies (window (headerGet range) file.length).1)
              chunkSize).2 then [.logError "failed to stream chunk"] else [])) := by
  have hlt : i < t.files.length := by
    rcases Nat.lt_or_ge i t.files.length with h | h
    · exact h
    · rw [List.getElem?_eq_none h] at hfile
      cases hfile
  have hne : ¬ t.files.length = 0 := by omega
  have hge : ¬ ((i : Int) ≥ (t.files.length : Int)) := by omega
  unfold handleStreamTorrentFile
  rw [if_neg hne, hidx]
  simp only
  rw [if_neg hge, index_of_getElem_some t.files i file hfile]

theorem handle_of_large_index (t : Torrent) (v : String) (range : Option String)
    (newReader : File → FileReader) (i : Int)
    (hidx : atoi v.toList = (i, none)) (hn : 1 ≤ t.files.length)
    (hi : (t.files.length : Int) ≤ i) :
    handleStreamTorrentFile t v range newReader = [.httpError "invalid fileIdx" 400] := by
  unfold handleStreamTorrentFile
  rw [if_neg (by omega), hidx]
  simp only
  rw [if_pos (by omega)]

theorem handle_of_negative_index (t : Torrent) (v : String) (range : Option String)
    (newReader : File → FileReader) (i : Int)
    (hidx : atoi v.toList = (i, none)) (hn : 1 ≤ t.files.length) (hi : i < 0) :
    handleStreamTorrentFile t v range newReader = [.indexPanic] := by
  unfold handleStreamTorrentFile
  rw [if_neg (by omega), hidx]
  simp only
  rw [if_neg (by omega)]
  simp [index, hi]

/-- C10: a request that passes validation (the path value parses to `i` and the bundle
has a file `i`) is answered, whatever the `Range` header and however the reader behaves,
by an exchange whose first five effects are the headers `Accept-Ranges: bytes`,
`Content-Type`, `Content-Length`, `Content-Range: bytes {start}-{end}/{fileLength}` in
decimal, and the status 206. None of these five writes body bytes, and no header, status
or error response is emitted after them: every body byte comes later, also when the seek
or the copy fails. -/
theorem response_head_before_body (t : Torrent) (v : String) (range : Option String)
    (newReader : File → FileReader) (i : Nat) (file : File)
    (hidx : atoi v.toList = ((i : Int), none)) (hfile : t.files[i]? = some file) :
    (handleStreamTorrentFile t v range newReader).take 5 =
      [ .setHeader "Accept-Ranges" "bytes",
        .setHeader "Content-Type" "video/mp4",
        .setHeader "Content-Length"
          (toString (contentLength (window (headerGet range) file.length).1
            (window (headerGet range) file.length).2)),
        .setHeader "Content-Range"
          ("bytes " ++ toString (window (headerGet range) file.length).1 ++ "-" ++
            toString (window (headerGet range) file.length).2 ++ "/" ++ toString file.length),
        .writeHeader 206 ] ∧
    (∀ e ∈ (handleStreamTorrentFile t v range newReader).take 5, isBody e = false) ∧
    (∀ e ∈ (handleStreamTorrentFile t v range newReader).drop 5,
      (∀ k x, e ≠ .setHeader k x) ∧ (∀ c, e ≠ .writeHeader c) ∧ (∀ m c, e ≠ .httpError m c)) := by
  rw [handle_of_valid t v range newReader i file hidx hfile]
  refine ⟨rfl, ?_, ?_⟩
  · intro e he
    simp only [List.cons_append, List.take_succ_cons, List.take_zero, List.mem_cons,
      List.mem_singleton, List.not_mem_nil, or_false] at he
    rcases he with rfl | rfl | rfl | rfl | rfl <;> rfl
  · intro e he
    simp only [List.cons_append, List.drop_succ_cons, List.drop_zero, List.nil_append,
      List.mem_cons] at he
    rcases he with rfl | rfl | he
    · simp
    · simp
    · split at he
      · rw [List.mem_singleton] at he
        subst he
        simp
      · rcases List.mem_cons.mp he with rfl | he
        · simp
        · split at he
          · rw [List.mem_singleton] at he
            subst he
            simp
          · cases he

/-- The statement of C10 for a file of 100000000 bytes, `Range: bytes=0-`, and a reader
whose seek fails. -/
theorem response_head_before_body_witness :
    (handleStreamTorrentFile ⟨[⟨100000000⟩], 262144, ["aa"]⟩ "0" (some "bytes=0-")
        (fun _ => ⟨fun _ => true, fun _ => 0⟩)).take 5 =
      [ .setHeader "Accept-Ranges" "bytes",
        .setHeader "Content-Type" "video/mp4",
        .setHeader "Content-Length"
          (toString (contentLength (window (headerGet (some "bytes=0-")) (File.mk 100000000).length).1
            (window (headerGet (some "bytes=0-")) (File.mk 100000000).length).2)),
        .setHeader "Content-Range"
          ("bytes " ++ toString (window (headerGet (some "bytes=0-")) (File.mk 100000000).length).1
            ++ "-" ++
            toString (window (headerGet (some "bytes=0-")) (File.mk 100000000).length).2 ++ "/" ++
            toString (File.mk 100000000).length),
        .writeHeader 206 ] ∧
    (∀ e ∈ (handleStreamTorrentFile ⟨[⟨100000000⟩], 262144, ["aa"]⟩ "0" (some "bytes=0-")
        (fun _ => ⟨fun _ => true, fun _ => 0⟩)).take 5, isBody e = false) ∧
    (∀ e ∈ (handleStreamTorrentFile ⟨[⟨100000000⟩], 262144, ["aa"]⟩ "0" (some "bytes=0-")
        (fun _ => ⟨fun _ => true, fun _ => 0⟩)).drop 5,
      (∀ k x, e ≠ .setHeader k x) ∧ (∀ c, e ≠ .writeHeader c) ∧ (∀ m c, e ≠ .httpError m c)) :=
  response_head_before_body ⟨[⟨100000000⟩], 262144, ["aa"]⟩ "0" (some "bytes=0-")
    (fun _ => ⟨fun _ => true, fun _ => 0⟩) 0 ⟨100000000⟩ (by decide) (by decide)

/-- C2: the code evaluated on the two examples of the claim. For a file of 100000000
bytes and `Range: bytes=0-` the window is `[0, 10485760)` and 10485760 body bytes are
written, but the `Content-Length` header says `10485761`; for a file of 5000000 bytes
and start 4999000 the window has 1000 bytes, 1000 bytes are written, and the header says
`1001`. -/
theorem contentLength_header_off_by_one :
    handleStreamTorrentFile ⟨[⟨100000000⟩], 262144, ["aa"]⟩ "0" (some "bytes=0-")
        (fun f => fullReader f.length) =
      [ .setHeader "Accept-Ranges" "bytes", .setHeader "Content-Type" "video/mp4",
        .setHeader "Content-Length" "10485761",
        .setHeader "Content-Range" "bytes 0-10485760/100000000",
        .writeHeader 206, .newReader, .seek 0, .body 10485760 ] ∧
    handleStreamTorrentFile ⟨[⟨5000000⟩], 262144, ["aa"]⟩ "0" (some "bytes=4999000-")
        (fun f => fullReader f.length) =
      [ .setHeader "Accept-Ranges" "bytes", .setHeader "Content-Type" "video/mp4",
        .setHeader "Content-Length" "1001",
        .setHeader "Content-Range" "bytes 4999000-5000000/5000000",
        .writeHeader 206, .newReader, .seek 4999000, .body 1000,
        .logError "failed to stream chunk" ] := by
  constructor <;> decide

/-- C5: the code evaluated on a bundle of three files. The path value `-1` parses to the
integer -1, which passes the check `fileIdx >= len(torrent.Files())`, and the indexing
`torrent.Files()[fileIdx]` panics: no 400 response is written. The path value `7` is
answered 400 `invalid fileIdx`. -/
theorem negative_fileIdx_panics :
    handleStreamTorrentFile ⟨[⟨10⟩, ⟨20⟩, ⟨30⟩], 16, ["aa", "bb", "cc", "dd"]⟩ "-1" none
        (fun f => fullReader f.length) = [.indexPanic] ∧
    handleStreamTorrentFile ⟨[⟨10⟩, ⟨20⟩, ⟨30⟩], 16, ["aa", "bb", "cc", "dd"]⟩ "7" none
        (fun f => fullReader f.length) = [.httpError "invalid fileIdx" 400] := by
  constructor <;> decide

/-! ## The bytes written and the missing range check -/

/-- C3, as stated, fails: a file of 100 bytes and `Range: bytes=200-` pass validation, the
reader supplies every byte from offset 200 to the end of the file (none), and the number
of body bytes written, 0, is not `end - start = 100 - 200`. -/
theorem body_bytes_past_end :
    ((bodyBytes (handleStreamTorrentFile ⟨[⟨100⟩], 16, ["aa"]⟩ "0" (some "bytes=200-")
        (fun f => fullReader f.length)) : Nat) : Int) ≠
      (window "bytes=200-" 100).2 - (window "bytes=200-" 100).1 := by
  decide

/-- C3, amended: for a request that passes validation, whose seek does not fail and whose
reader supplies every byte of the file from offset `start` up to the end of the file, and
whose start lies inside the file (`start ≤ fileLength`) with `start + 10485760` an `int64`,
the number of body bytes written is exactly `end - start`. -/
theorem body_bytes_eq_window (t : Torrent) (v : String) (range : Option String)
    (newReader : File → FileReader) (i : Nat) (file : File)
    (hidx : atoi v.toList = ((i : Int), none)) (hfile : t.files[i]? = some file)
    (hseek : (newReader file).seekFails (window (headerGet range) file.length).1 = false)
    (hsup : (newReader file).supplies (window (headerGet range) file.length).1 =
      (file.length - (window (headerGet range) file.length).1).toNat)
    (hle : (window (headerGet range) file.length).1 ≤ file.length)
    (hov : (window (headerGet range) file.length).1 + 10485760 ≤ maxInt64) :
    ((bodyBytes (handleStreamTorrentFile t v range newReader) : Nat) : Int) =
      (window (headerGet range) file.length).2 - (window (headerGet range) file.length).1 := by
  rw [handle_of_valid t v range newReader i file hidx hfile, hseek, hsup]
  have hb := rangeStart_bounds (headerGet range)
  simp only [window, chunkSize_eq, maxInt64] at hle hov hb ⊢
  have hw : wrapInt64 (rangeStart (headerGet range) + 10485760)
      = rangeStart (headerGet range) + 10485760 := by
    simp only [wrapInt64]
    omega
  rw [hw]
  have hsum : ∀ (n : Nat) (tl : List Event), (∀ e ∈ tl, isBody e = false) →
      bodyBytes
        ([ .setHeader "Accept-Ranges" "bytes",
          .setHeader "Content-Type" "video/mp4",
          .setHeader "Content-Length"
            (toString (contentLength (rangeStart (headerGet range))
              (min (rangeStart (headerGet range) + 10485760) file.length))),
          .setHeader "Content-Range"
            ("bytes " ++ toString (rangeStart (headerGet range)) ++ "-" ++
              toString (min (rangeStart (headerGet range) + 10485760) file.length) ++ "/" ++
              toString file.length),
          .writeHeader 206,
          .newReader,
          .seek (rangeStart (headerGet range)) ] ++ (Event.body n :: tl)) = n := by
    intro n tl htl
    have hz : (tl.map (fun e => match e with
        | .body n => n
        | _ => 0)).sum = 0 := by
      apply List.sum_eq_zero
      intro x hx
      obtain ⟨e, he, rfl⟩ := List.mem_map.mp hx
      have := htl e he
      cases e <;> simp_all [isBody]
    simp only [bodyBytes, List.cons_append, List.nil_append, List.map_cons, List.sum_cons, hz]
    omega
  simp only [Bool.false_eq_true, if_false]
  rw [hsum]
  · simp only [copyN]
    omega
  · intro e he
    split at he
    · rw [List.mem_singleton] at he
      subst he
      rfl
    · cases he

/-- The statement of C3, amended, for a file of 5000000 bytes and `Range: bytes=4999000-`. -/
theorem body_bytes_eq_window_witness :
    ((bodyBytes (handleStreamTorrentFile ⟨[⟨5000000⟩], 262144, ["aa"]⟩ "0"
        (some "bytes=4999000-") (fun f => fullReader f.length)) : Nat) : Int) =
      (window (headerGet (some "bytes=4999000-")) (File.mk 5000000).length).2 -
        (window (headerGet (some "bytes=4999000-")) (File.mk 5000000).length).1 :=
  body_bytes_eq_window ⟨[⟨5000000⟩], 262144, ["aa"]⟩ "0" (some "bytes=4999000-")
    (fun f => fullReader f.length) 0 ⟨5000000⟩ (by decide) (by decide) (by decide) (by decide)
    (by decide) (by decide)

theorem handle_of_valid_no_error (t : Torrent) (v : String) (range : Option String)
    (newReader : File → FileReader) (i : Nat) (file : File)
    (hidx : atoi v.toList = ((i : Int), none)) (hfile : t.files[i]? = some file) :
    ∀ e ∈ handleStreamTorrentFile t v range newReader, ∀ m c, e ≠ .httpError m c := by
  rw [handle_of_valid t v range newReader i file hidx hfile]
  intro e he m c
  simp only [List.cons_append, List.nil_append, List.mem_cons] at he
  rcases he with rfl | rfl | rfl | rfl | rfl | rfl | rfl | he
  all_goals try simp
  split at he
  · rw [List.mem_singleton] at he
    subst he
    simp
  · rcases List.mem_cons.mp he with rfl | he
    · simp
    · split at he
      · rw [List.mem_singleton] at he
        subst he
        simp
      · cases he

/-- C4, as stated, fails: for a file of 100 bytes and `Range: bytes=200-` no out-of-range
condition is raised. The window is `start = 200`, `end = 100`, of negative length, and it
is used to build the headers of a 206 response. -/
theorem window_past_end_served :
    handleStreamTorrentFile ⟨[⟨100⟩], 16, ["aa"]⟩ "0" (some "bytes=200-")
        (fun f => fullReader f.length) =
      [ .setHeader "Accept-Ranges" "bytes", .setHeader "Content-Type" "video/mp4",
        .setHeader "Content-Length" "-99",
        .setHeader "Content-Range" "bytes 200-100/100",
        .writeHeader 206, .newReader, .seek 200, .body 0,
        .logError "failed to stream chunk" ] ∧
    window "bytes=200-" 100 = (200, 100) ∧
    (window "bytes=200-" 100).2 < (window "bytes=200-" 100).1 := by
  decide

/-- C4, amended: the handler has no out-of-range check. For every file length `L` and every
requested start `s ≥ L` (an `int64`), a request that passes validation with the header
`bytes=<s>-` is answered 206, never with an error response, with headers built from the
window `start = s`, `end = min(s + 10485760, L)` (the `int64` sum). That window has
`end ≤ L ≤ start`: it is empty or of negative length, and of negative length when
`s > L`. -/
theorem window_of_start_past_end (t : Torrent) (v : String) (newReader : File → FileReader)
    (i : Nat) (file : File) (s : Nat)
    (hidx : atoi v.toList = ((i : Int), none)) (hfile : t.files[i]? = some file)
    (hs : file.length ≤ (s : Int)) (hmax : (s : Int) ≤ maxInt64) :
    (window ("bytes=" ++ toString s ++ "-") file.length).1 = s ∧
    (window ("bytes=" ++ toString s ++ "-") file.length).2
      = min (wrapInt64 (s + 10485760)) file.length ∧
    (window ("bytes=" ++ toString s ++ "-") file.length).2 ≤ file.length ∧
    (window ("bytes=" ++ toString s ++ "-") file.length).2
      ≤ (window ("bytes=" ++ toString s ++ "-") file.length).1 ∧
    (file.length < (s : Int) →
      (window ("bytes=" ++ toString s ++ "-") file.length).2
        < (window ("bytes=" ++ toString s ++ "-") file.length).1) ∧
    (handleStreamTorrentFile t v (some ("bytes=" ++ toString s ++ "-")) newReader).take 5 =
      [ .setHeader "Accept-Ranges" "bytes",
        .setHeader "Content-Type" "video/mp4",
        .setHeader "Content-Length"
          (toString (contentLength (window ("bytes=" ++ toString s ++ "-") file.length).1
            (window ("bytes=" ++ toString s ++ "-") file.length).2)),
        .setHeader "Content-Range"
          ("bytes " ++ toString (window ("bytes=" ++ toString s ++ "-") file.length).1 ++ "-" ++
            toString (window ("bytes=" ++ toString s ++ "-") file.length).2 ++ "/" ++
            toString file.length),
        .writeHeader 206 ] ∧
    (∀ e ∈ handleStreamTorrentFile t v (some ("bytes=" ++ toString s ++ "-")) newReader,
      ∀ m c, e ≠ .httpError m c) := by
  have hstart := rangeStart_open s hmax
  have hw1 : (window ("bytes=" ++ toString s ++ "-") file.length).1 = s := by
    simp only [window, hstart]
  have hw2 : (window ("bytes=" ++ toString s ++ "-") file.length).2
      = min (wrapInt64 (s + 10485760)) file.length := by
    simp only [window, hstart, chunkSize_eq]
  refine ⟨hw1, hw2, ?_, ?_, ?_, ?_, ?_⟩
  · rw [hw2]
    exact min_le_right _ _
  · rw [hw1, hw2]
    exact le_trans (min_le_right _ _) hs
  · intro hlt
    rw [hw1, hw2]
    exact lt_of_le_of_lt (min_le_right _ _) hlt
  · rw [handle_of_valid t v _ newReader i file hidx hfile]
    rfl
  · exact handle_of_valid_no_error t v _ newReader i file hidx hfile

/-- The statement of C4, amended, for a file of 100 bytes and `s = 200`. -/
theorem window_of_start_past_end_witness :
    (window ("bytes=" ++ toString 200 ++ "-") (File.mk 100).length).1 = (200 : Nat) ∧
    (window ("bytes=" ++ toString 200 ++ "-") (File.mk 100).length).2
      = min (wrapInt64 ((200 : Nat) + 10485760)) (File.mk 100).length ∧
    (window ("bytes=" ++ toString 200 ++ "-") (File.mk 100).length).2 ≤ (File.mk 100).length ∧
    (window ("bytes=" ++ toString 200 ++ "-") (File.mk 100).length).2
      ≤ (window ("bytes=" ++ toString 200 ++ "-") (File.mk 100).length).1 ∧
    ((File.mk 100).length < ((200 : Nat) : Int) →
      (window ("bytes=" ++ toString 200 ++ "-") (File.mk 100).length).2
        < (window ("bytes=" ++ toString 200 ++ "-") (File.mk 100).length).1) ∧
    (handleStreamTorrentFile ⟨[⟨100⟩], 16, ["aa"]⟩ "0" (some ("bytes=" ++ toString 200 ++ "-"))
        (fun f => fullReader f.length)).take 5 =
      [ .setHeader "Accept-Ranges" "bytes",
        .setHeader "Content-Type" "video/mp4",
        .setHeader "Content-Length"
          (toString (contentLength
            (window ("bytes=" ++ toString 200 ++ "-") (File.mk 100).length).1
            (window ("bytes=" ++ toString 200 ++ "-") (File.mk 100).length).2)),
        .setHeader "Content-Range"
          ("bytes " ++ toString (window ("bytes=" ++ toString 200 ++ "-") (File.mk 100).length).1
            ++ "-" ++
            toString (window ("bytes=" ++ toString 200 ++ "-") (File.mk 100).length).2 ++ "/" ++
            toString (File.mk 100).length),
        .writeHeader 206 ] ∧
    (∀ e ∈ handleStreamTorrentFile ⟨[⟨100⟩], 16, ["aa"]⟩ "0"
        (some ("bytes=" ++ toString 200 ++ "-")) (fun f => fullReader f.length),
      ∀ m c, e ≠ .httpError m c) :=
  window_of_start_past_end ⟨[⟨100⟩], 16, ["aa"]⟩ "0" (fun f => fullReader f.length) 0 ⟨100⟩ 200
    (by decide) (by decide) (by decide) (by decide)

/-! ## A missing or malformed start (lines 397-400) -/

theorem takeWhile_digits_split (l : List Char) :
    ∃ ds rest, l = ds ++ rest ∧ l.takeWhile (fun c => decide (isDigitChar c)) = ds ∧
      (∀ x ∈ ds, isDigitChar x) ∧ (rest = [] ∨ ∃ c r, rest = c :: r ∧ ¬ isDigitChar c) := by
  induction l with
  | nil => exact ⟨[], [], rfl, rfl, by simp, Or.inl rfl⟩
  | cons x xs ih =>
    by_cases hx : isDigitChar x
    · obtain ⟨ds, rest, hl, htw, hds, hrest⟩ := ih
      refine ⟨x :: ds, rest, by rw [hl]; rfl, ?_, ?_, hrest⟩
      · simp [List.takeWhile, hx, htw]
      · intro y hy
        rcases List.mem_cons.mp hy with rfl | hy
        · exact hx
        · exact hds y hy
    · refine ⟨[], x :: xs, rfl, ?_, by simp, Or.inr ⟨x, xs, rfl, hx⟩⟩
      simp [List.takeWhile, hx]

theorem parseUint_of_malformed (body : List Char)
    (h : body = [] ∨
      (body.takeWhile (fun c => decide (isDigitChar c))).length < body.length ∧
        decValue (body.takeWhile (fun c => decide (isDigitChar c))) 0 ≤ maxUint64) :
    parseUint body = (0, some .ErrSyntax) := by
  rcases h with rfl | ⟨hlen, hval⟩
  · rfl
  · obtain ⟨ds, rest, hl, htw, hds, hrest⟩ := takeWhile_digits_split body
    rw [htw] at hlen hval
    rcases hrest with rfl | ⟨c, r, rfl, hc⟩
    · rw [hl, List.append_nil] at hlen
      omega
    · have hne : body ≠ [] := by
        rw [hl]
        simp
      have hu : parseUint body = parseUintLoop body 0 := by
        cases body with
        | nil => exact absurd rfl hne
        | cons y ys => rfl
      rw [hu, hl, parseUintLoop_digits ds (c :: r) 0 hds, if_pos (Or.inr hval),
        parseUintLoop_not_digit c r _ hc]

theorem parseInt_of_malformed (a : List Char) (h : malformedStart a = true) :
    parseInt a = (0, some .ErrSyntax) := by
  unfold malformedStart at h
  have hu := parseUint_of_malformed (unsignedPart a) (of_decide_eq_true h)
  cases a with
  | nil => rfl
  | cons c cs =>
    by_cases hs : c = '+' ∨ c = '-'
    · have hbody : unsignedPart (c :: cs) = cs := by simp [unsignedPart, hs]
      rw [hbody] at hu
      simp [parseInt, hs, hu]
    · have hbody : unsignedPart (c :: cs) = c :: cs := by simp [unsignedPart, hs]
      rw [hbody] at hu
      simp [parseInt, hs, hu]

theorem rangeStart_of_large_digits (h : String) (a b : List Char)
    (hsplit : trimPrefix h.toList "bytes=".toList = a ++ '-' :: b)
    (hne : a ≠ []) (hds : ∀ c ∈ a, isDigitChar c) (hbig : 9223372036854775807 < decValue a 0) :
    rangeStart h = 9223372036854775807 := by
  rw [rangeStart_of_sep h a b hsplit (digits_no_sep a hds), parseInt_digits a hne hds,
    if_neg (by omega)]

/-- C6, as stated, fails: in `bytes=9223372036854775808-` the text before the `-` is a
digit string too large for `int64`; `ParseInt` reports a range error and returns the
largest `int64`, and the code, discarding the error, takes that as the start. -/
theorem rangeStart_too_large :
    (parseInt "9223372036854775808".toList).2 = some .ErrRange ∧
    rangeStart "bytes=9223372036854775808-" = 9223372036854775807 ∧
    rangeStart "bytes=9223372036854775808-" ≠ 0 := by
  decide

/-- C6, amended: the computed start is 0 for every `Range` header value that is
absent or empty, or has no `-` after removing the `bytes=` prefix, or whose text before
the first `-` is not decimal syntax: empty as in `bytes=-500`, a bare `+`, or with a
character that is not a digit, the digits before it not exceeding `2^64 - 1`. -/
theorem rangeStart_missing_or_malformed (range : Option String) (a b : List Char) (L : Int)
    (hcase : range = none ∨ range = some "" ∨
      '-' ∉ trimPrefix (headerGet range).toList "bytes=".toList ∨
      (trimPrefix (headerGet range).toList "bytes=".toList = a ++ '-' :: b ∧ '-' ∉ a ∧
        malformedStart a = true)) :
    rangeStart (headerGet range) = 0 ∧ (window (headerGet range) L).1 = 0 := by
  have h0 : rangeStart (headerGet range) = 0 := by
    rcases hcase with rfl | rfl | hno | ⟨hsplit, ha, hbad⟩
    · decide
    · decide
    · exact rangeStart_of_no_sep _ hno
    · rw [rangeStart_of_sep _ a b hsplit ha, parseInt_of_malformed a hbad]
  exact ⟨h0, by simp only [window, h0]⟩

/-- The statement of C6, amended, for the suffix form `bytes=-500`. -/
theorem rangeStart_missing_or_malformed_witness :
    rangeStart (headerGet (some "bytes=-500")) = 0 ∧
      (window (headerGet (some "bytes=-500")) 1000).1 = 0 :=
  rangeStart_missing_or_malformed (some "bytes=-500") [] "500".toList 1000
    (Or.inr (Or.inr (Or.inr ⟨by decide, by decide, by decide⟩)))

example : malformedStart "12x".toList = true := by decide
example : malformedStart "+".toList = true := by decide
example : malformedStart "99999999999999999999x".toList = false := by decide
example : malformedStart "18446744073709551615x".toList = true := by decide
example : rangeStart "bytes=18446744073709551615x-" = 0 := by decide
example : malformedStart "100".toList = false := by decide

/-! ## `getFileHash` (lines 429-445) -/

theorem getFileHash_no_files (t : Torrent) (fileIdx : Int) (h : t.files.length = 0) :
    getFileHash t fileIdx = .error "invalid torrent" := by
  simp [getFileHash, h]

theorem getFileHash_large_index (t : Torrent) (fileIdx : Int) (hn : 1 ≤ t.files.length)
    (h : (t.files.length : Int) ≤ fileIdx) :
    getFileHash t fileIdx = .error "invalid fileIdx" := by
  unfold getFileHash
  rw [if_neg (by omega), if_pos (by omega)]

theorem getFileHash_negative_index (t : Torrent) (fileIdx : Int) (hn : 1 ≤ t.files.length)
    (h : fileIdx < 0) : getFileHash t fileIdx = .indexPanic := by
  unfold getFileHash
  rw [if_neg (by omega), if_neg (by omega)]
  simp [index, h]

theorem getFileHash_piece_lookup (t : Torrent) (i : Nat) (hi : i < t.files.length) :
    getFileHash t (i : Int) =
      match t.pieces[i]? with
      | none => .indexPanic
      | some hash => .ok hash := by
  unfold getFileHash
  rw [if_neg (by omega), if_neg (by omega)]
  have hidx : index t.pieces (i : Int) = t.pieces[i]? := by
    unfold index
    rw [if_neg (by omega)]
    simp
  rw [hidx]

/-- C8: the code evaluated on a bundle with pieces of 4 bytes and two files of 8 and 4
bytes. File 1 occupies bytes 8 to 12, which piece 2 alone backs; `getFileHash` for file 1
returns the hash of piece 1, a piece that backs file 0 and holds no byte of file 1. -/
theorem getFileHash_returns_unrelated_piece :
    getFileHash ⟨[⟨8⟩, ⟨4⟩], 4, ["aa", "bb", "cc"]⟩ 1 = .ok "bb" ∧
    (List.range 3).filter (fun p => pieceBacksFile ⟨[⟨8⟩, ⟨4⟩], 4, ["aa", "bb", "cc"]⟩ p 1)
      = [2] ∧
    pieceBacksFile ⟨[⟨8⟩, ⟨4⟩], 4, ["aa", "bb", "cc"]⟩ 1 1 = false ∧
    pieceBacksFile ⟨[⟨8⟩, ⟨4⟩], 4, ["aa", "bb", "cc"]⟩ 1 0 = true := by
  decide

/-- C9: the code evaluated where it leaves the documented cases. On a bundle of three
files, `fileIdx = -1` passes both checks and the piece lookup panics instead of returning
the error `invalid fileIdx`; on a bundle of three files laid out in a single piece, the
valid `fileIdx = 2` looks up piece 2, which does not exist, and panics instead of
returning a hash. -/
theorem getFileHash_panics :
    getFileHash ⟨[⟨10⟩, ⟨20⟩, ⟨30⟩], 16, ["aa", "bb", "cc", "dd"]⟩ (-1) = .indexPanic ∧
    getFileHash ⟨[⟨1⟩, ⟨1⟩, ⟨1⟩], 16, ["aa"]⟩ 2 = .indexPanic ∧
    getFileHash ⟨[], 16, []⟩ 0 = .error "invalid torrent" ∧
    getFileHash ⟨[⟨10⟩, ⟨20⟩, ⟨30⟩], 16, ["aa", "bb", "cc", "dd"]⟩ 3 = .error "invalid fileIdx" := by
  decide

end Anyflix
